import Mathlib

/-!
A shallow embedding of the heatmon firmware application
(src/user/applications/heatmon/application.cpp) and proofs about it.

The embedding models:
 - the hysteresis debounce step performed per zone in `read_all_zones`,
 - the bounded event log (std::list with pop_back/emplace_front),
 - the byte-level JSON encoder `write_event_json` / `update_event_json`,
   including the exact snprintf truncation semantics,
 - the full `read_all_zones` poll over a system state.

Buffers are modelled as lists of characters of fixed length together with
an out-of-bounds flag: every store through `writeByte` either lands inside
the buffer or raises the flag, so "no write ever happens at an index
greater or equal to the capacity" is exactly "the flag stays false".
-/

/-- Hysteresis upper clamp (source constant HYST_MAX). -/
def HYST_MAX : Int := 500

/-- Hysteresis lower clamp (source constant HYST_MIN). -/
def HYST_MIN : Int := 0

/-- Demand turns on when the counter exceeds this (source HYST_THRESH_ON). -/
def HYST_THRESH_ON : Int := 400

/-- Demand turns off when the counter falls below this (source HYST_THRESH_OFF). -/
def HYST_THRESH_OFF : Int := 100

/-- enum Demand: Unknown = 0. -/
def demandUnknown : Int := 0

/-- enum Demand: True = 1. -/
def demandTrue : Int := 1

/-- enum Demand: False = 2. -/
def demandFalse : Int := 2

/-- struct ZoneInfo from the source. -/
structure ZoneInfo where
  id : Int
  pin : Nat
  count : Int
  demand : Int
deriving DecidableEq, Repr

/-- struct ZoneEvent from the source. -/
structure ZoneEvent where
  info : ZoneInfo
  time : Int
  demand : Int
deriving DecidableEq, Repr

/-- Source constant MAX_NUM_EVENTS. -/
def MAX_NUM_EVENTS : Nat := 20

/-- One iteration of the per-zone body of `read_all_zones`, acting on the
zone state only.  `rawHigh` is the value of `digitalRead(zone.pin) == HIGH`
(HIGH means the zone is off).  Mirrors the source lines 200-213. -/
def observe (zone : ZoneInfo) (rawHigh : Bool) : ZoneInfo :=
  if rawHigh then
    let c0 := zone.count - 1
    let c1 := if c0 < HYST_MIN then HYST_MIN else c0
    let d := if c1 < HYST_THRESH_OFF then demandFalse else zone.demand
    { zone with count := c1, demand := d }
  else
    let c0 := zone.count + 5
    let c1 := if c0 > HYST_MAX then HYST_MAX else c0
    let d := if c1 > HYST_THRESH_ON then demandTrue else zone.demand
    { zone with count := c1, demand := d }

/-- `observe` iterated over a list of raw readings (oldest first). -/
def observeSeq (zone : ZoneInfo) (raws : List Bool) : ZoneInfo :=
  raws.foldl observe zone

/-- Pushing one event to the log, mirroring the source lines 222-224:
`if (zone_events.size() == MAX_NUM_EVENTS) zone_events.pop_back();`
then `zone_events.emplace_front(event)`.  The head of the list is the
most recent event. -/
def push_event (log : List ZoneEvent) (e : ZoneEvent) : List ZoneEvent :=
  let log := if log.length = MAX_NUM_EVENTS then log.dropLast else log
  e :: log

/-- The NUL byte. -/
def nulChar : Char := Char.ofNat 0

/-- A fixed-capacity character buffer.  `data` always keeps the length of
the underlying C array; `oob` records whether any store was ever attempted
at an index outside the array. -/
structure Buf where
  data : List Char
  oob : Bool
deriving DecidableEq, Repr

/-- A single byte store `buffer[i] = c`.  Out-of-range stores leave the
data unchanged and raise the `oob` flag. -/
def writeByte (b : Buf) (i : Nat) (c : Char) : Buf :=
  if i < b.data.length then { data := b.data.set i c, oob := b.oob }
  else { data := b.data, oob := true }

/-- Sequential byte stores of a string starting at index `i`. -/
def writeBytes (b : Buf) (i : Nat) : List Char → Buf
  | [] => b
  | c :: cs => writeBytes (writeByte b i c) (i + 1) cs

/-- The decimal digit character for `d` (callers pass `d < 10`);
this is what printf %d produces digit by digit. -/
def digitChar10 (d : Nat) : Char :=
  if d = 1 then '1' else if d = 2 then '2' else if d = 3 then '3'
  else if d = 4 then '4' else if d = 5 then '5' else if d = 6 then '6'
  else if d = 7 then '7' else if d = 8 then '8' else if d = 9 then '9'
  else '0'

/-- Fuel-driven decimal rendering of a natural number (most significant
digit first).  Any `fuel > 0` with `fuel ≥ number of digits` is enough. -/
def natDigitsAux : Nat → Nat → List Char
  | 0, _ => []
  | fuel + 1, n =>
    if n < 10 then [digitChar10 n]
    else natDigitsAux fuel (n / 10) ++ [digitChar10 (n % 10)]

/-- Decimal rendering of a natural number, as printf %u would produce. -/
def natToChars (n : Nat) : List Char := natDigitsAux (n + 1) n

/-- Decimal rendering of an integer, as printf %d would produce. -/
def intToChars (i : Int) : List Char :=
  if i < 0 then '-' :: natToChars i.natAbs else natToChars i.toNat

/-- The characters produced by formatting one event with
ZONE_JSON_STRING = "γ\"id\":%d,\"t\":%d,\"on\":%d}" (γ is the open brace),
where the %d arguments are `event.info.id`, `event.time` and
`int(event.demand == Demand::True)`. -/
def jsonOfEvent (e : ZoneEvent) : List Char :=
  '\x7b' :: '"' :: 'i' :: 'd' :: '"' :: ':' ::
    (intToChars e.info.id ++
      (',' :: '"' :: 't' :: '"' :: ':' ::
        (intToChars e.time ++
          (',' :: '"' :: 'o' :: 'n' :: '"' :: ':' ::
            ((if e.demand = demandTrue then ['1'] else ['0']) ++ ['\x7d'])))))

/-- The exact behavior of `snprintf(buffer + off, n, ...)` rendering the
string `s`: when `n > 0` it stores the first `n - 1` characters of `s`
followed by a terminating NUL, and it always returns the full length of
`s` (the length that would have been written given enough room). -/
def snprintfB (b : Buf) (off : Nat) (n : Nat) (s : List Char) : Buf × Nat :=
  if n = 0 then (b, s.length)
  else
    (writeByte (writeBytes b off (s.take (n - 1))) (off + (s.take (n - 1)).length) nulChar,
     s.length)

/-- The characters `write_event_json` tries to place for one event:
the optional leading comma followed by the rendered object. -/
def jsonPiece (lc : Bool) (e : ZoneEvent) : List Char :=
  (if lc then [','] else []) ++ jsonOfEvent e

/-- Source function `write_event_json` (lines 122-140), acting on the
buffer region starting at `off` with `bufsize` available bytes.
When `leading_comma` holds and at least 2 bytes are available, a comma is
stored first and the region shrinks by one; then snprintf renders the
event and the result is -1 when the rendering (plus NUL) did not fit,
else the number of bytes written. -/
def write_event_json (e : ZoneEvent) (b : Buf) (off : Nat) (bufsize : Nat)
    (leading_comma : Bool) : Buf × Int :=
  if leading_comma ∧ 2 ≤ bufsize then
    let r := snprintfB (writeByte b off ',') (off + 1) (bufsize - 1) (jsonOfEvent e)
    if bufsize - 1 ≤ r.2 then (r.1, -1) else (r.1, (r.2 : Int) + 1)
  else
    let r := snprintfB b off bufsize (jsonOfEvent e)
    if bufsize ≤ r.2 then (r.1, -1)
    else (r.1, (r.2 : Int) + (if leading_comma then 1 else 0))

/-- The event loop of `update_event_json` (source lines 161-173):
`first` is the source's `first` flag, `idx` the current write index. -/
def update_event_json_go (events : List ZoneEvent) (first : Bool) (b : Buf)
    (idx : Nat) : Buf × Nat :=
  match events with
  | [] => (b, idx)
  | e :: rest =>
    let free_space := b.data.length - idx - 1
    let r := write_event_json e b idx free_space (!first)
    if r.2 < 0 then (r.1, idx)
    else update_event_json_go rest false r.1 (idx + r.2.toNat)

/-- Source function `update_event_json` (lines 150-183), generalized over
the destination buffer (the source uses the global `zone_events_json`
array, whose capacity is `sizeof(zone_events_json)`; here the capacity is
`b.data.length`).  Returns the buffer and the returned index. -/
def update_event_json (events : List ZoneEvent) (b : Buf) : Buf × Nat :=
  if b.data.length < 3 then (b, 0)
  else
    let b1 := writeByte b 0 '['
    let r := update_event_json_go events true b1 1
    let b2 := writeByte r.1 r.2 ']'
    let b3 := writeByte b2 (r.2 + 1) nulChar
    (b3, r.2 + 1)

/-- Reading a C string: the characters stored before the first NUL. -/
def cString (l : List Char) : List Char := l.takeWhile (fun c => c ≠ nulChar)

/-- 32-bit twos-complement wrap of an integer, the behavior the source
relies on for `polls += 1` (a C `int`). -/
def wrap32 (i : Int) : Int := (i + 2 ^ 31) % 2 ^ 32 - 2 ^ 31

/-- The poll counter update of `read_all_zones` (source lines 236-237):
increment with rollover to 0 instead of going negative. -/
def pollsNext (p : Int) : Int :=
  let q := wrap32 (p + 1)
  if q < 0 then 0 else q

/-- The global mutable state of the application. -/
structure SysState where
  zone_list : List ZoneInfo
  zone_events : List ZoneEvent
  zone_events_json : Buf
  polls : Int
  last_poll : Int
  last_event : Int
deriving Repr

/-- Accumulator for the per-zone loop inside `read_all_zones`:
the zones already processed, the event log, the 64-byte stack buffer
`buff`, the payloads passed to `Particle.publish` so far, and the
`new_event` flag. -/
structure PollAcc where
  zones : List ZoneInfo
  events : List ZoneEvent
  buff : Buf
  pubs : List (List Char)
  new_event : Bool
deriving Repr

/-- One zone iteration of `read_all_zones` (source lines 196-230).
`high` gives the value of `digitalRead(pin) == HIGH` for each pin and
`now` is the value returned by `Time.now()`. -/
def pollZone (high : Nat → Bool) (now : Int) (acc : PollAcc) (z : ZoneInfo) :
    PollAcc :=
  let z2 := observe z (high z.pin)
  if z.demand ≠ z2.demand then
    let ev : ZoneEvent := { info := z2, time := now, demand := z2.demand }
    let events := push_event acc.events ev
    let r := write_event_json ev acc.buff 0 acc.buff.data.length false
    { zones := acc.zones ++ [z2], events := events, buff := r.1,
      pubs := acc.pubs ++ [cString r.1.data], new_event := true }
  else
    { acc with zones := acc.zones ++ [z2] }

/-- The events pushed by one call of `read_all_zones` on zones `zones`,
in push order: one event per zone whose demand changed. -/
def newEvents (high : Nat → Bool) (now : Int) (zones : List ZoneInfo) :
    List ZoneEvent :=
  zones.filterMap (fun z =>
    let z2 := observe z (high z.pin)
    if z.demand ≠ z2.demand then
      some { info := z2, time := now, demand := z2.demand }
    else none)

/-- Source function `read_all_zones` (lines 189-243).  `binit` is the
(uninitialized) initial content of the 64-byte stack buffer `buff`;
theorems about the publish payloads assume `binit.length = 64`.
Returns the new state together with the list of payloads published. -/
def read_all_zones (high : Nat → Bool) (now : Int) (binit : List Char)
    (s : SysState) : SysState × List (List Char) :=
  let acc0 : PollAcc :=
    { zones := [], events := s.zone_events, buff := { data := binit, oob := false },
      pubs := [], new_event := false }
  let out := s.zone_list.foldl (pollZone high now) acc0
  let time := now
  let s1 : SysState :=
    { s with zone_list := out.zones, zone_events := out.events,
             last_poll := time, polls := pollsNext s.polls }
  if out.new_event then
    let r := update_event_json out.events s1.zone_events_json
    ({ s1 with zone_events_json := r.1, last_event := time }, out.pubs)
  else (s1, out.pubs)

/-- `read_all_zones` iterated over a list of (pin readings, clock value,
stack garbage) inputs, oldest first. -/
def pollSeq (inputs : List ((Nat → Bool) × Int × List Char)) (s : SysState) :
    SysState :=
  inputs.foldl (fun s p => (read_all_zones p.1 p.2.1 p.2.2 s).1) s

/-- The initial global state of the source: three zones on pins D4, D5, D6
with counter HYST_MAX/2 and demand Unknown, an empty event log, the
global buffer `char zone_events_json[620] = "[]"`, and zero counters. -/
def init_state : SysState :=
  { zone_list :=
      [ { id := 0, pin := 4, count := HYST_MAX / 2, demand := demandUnknown },
        { id := 1, pin := 5, count := HYST_MAX / 2, demand := demandUnknown },
        { id := 2, pin := 6, count := HYST_MAX / 2, demand := demandUnknown } ],
    zone_events := [],
    zone_events_json :=
      { data := '[' :: ']' :: List.replicate 618 nulChar, oob := false },
    polls := 0, last_poll := 0, last_event := 0 }

/-- The spec-level rendering of the comma-separated event objects. -/
def jsonItems : List ZoneEvent → List Char
  | [] => []
  | [e] => jsonOfEvent e
  | e :: f :: rest => jsonOfEvent e ++ ',' :: jsonItems (f :: rest)

/-- The spec-level rendering of a full JSON array of events. -/
def jsonArray (events : List ZoneEvent) : List Char :=
  '[' :: (jsonItems events ++ [']'])

/-- A zone at the hysteresis midpoint with demand Unknown (scenario A). -/
def midZone : ZoneInfo := { id := 0, pin := 4, count := 250, demand := demandUnknown }

/-- A one-zone system state for the scenario-A poll runs. -/
def midState : SysState :=
  { zone_list := [midZone], zone_events := [],
    zone_events_json := { data := List.replicate 30 ' ', oob := false },
    polls := 0, last_poll := 0, last_event := 0 }

/-- `n` poll inputs that read every zone as active (LOW) at time 1000. -/
def activeInputs (n : Nat) : List ((Nat → Bool) × Int × List Char) :=
  List.replicate n ((fun _ => false), 1000, List.replicate 64 ' ')

/-- A zone at the hysteresis minimum with demand Unknown (latency bound). -/
def minZone : ZoneInfo := { id := 0, pin := 4, count := 0, demand := demandUnknown }

/-- The event of scenario C: renders as a JSON object with id 0, t 1000, on 1. -/
def c6ev : ZoneEvent :=
  { info := { id := 0, pin := 0, count := 0, demand := demandTrue },
    time := 1000, demand := demandTrue }

/-- A fresh destination buffer of capacity `n` holding arbitrary bytes. -/
def mkBuf (n : Nat) : Buf := { data := List.replicate n 'x', oob := false }

/-- An event with a given id (scenario B pushes ids 0..24). -/
def mkIdEvent (i : Nat) : ZoneEvent :=
  { info := { id := (i : Int), pin := 0, count := 0, demand := demandTrue },
    time := 0, demand := demandTrue }

/-- The scenario-A zone state after the 30th active observation:
counter exactly 400, demand still Unknown. -/
def midZone30 : ZoneInfo :=
  { id := 0, pin := 4, count := 400, demand := demandUnknown }

/-- The event logged by the scenario-A transition on observation 31. -/
def midEvent31 : ZoneEvent :=
  { info := { id := 0, pin := 4, count := 405, demand := demandTrue },
    time := 1000, demand := demandTrue }

/-! ### Basic list and buffer lemmas -/

theorem take_set_succ {α : Type} {l : List α} {i : Nat} (c : α) (h : i < l.length) :
    (l.set i c).take (i + 1) = l.take i ++ [c] := by
  rw [List.set_eq_take_cons_drop c h, List.take_append_eq_append_take]
  have hlen : (l.take i).length = i := by rw [List.length_take]; omega
  rw [List.take_take, hlen]
  have h1 : min (i + 1) i = i := by omega
  have h2 : i + 1 - i = 1 := by omega
  rw [h1, h2, List.take_succ_cons, List.take_zero]

theorem take_set_of_le {α : Type} {l : List α} {i j : Nat} (c : α) (h : j ≤ i) :
    (l.set i c).take j = l.take j := by
  by_cases hi : i < l.length
  · rw [List.set_eq_take_cons_drop c hi, List.take_append_eq_append_take]
    have hlen : (l.take i).length = i := by rw [List.length_take]; omega
    rw [List.take_take, hlen]
    have h1 : min j i = j := by omega
    have h2 : j - i = 0 := by omega
    rw [h1, h2, List.take_zero, List.append_nil]
  · rw [List.set_eq_of_length_le (by omega)]

theorem drop_set_of_lt {α : Type} {l : List α} {i j : Nat} (c : α) (h : i < j) :
    (l.set i c).drop j = l.drop j := by
  by_cases hi : i < l.length
  · rw [List.set_eq_take_cons_drop c hi, List.drop_append_eq_append_drop]
    have hlen : (l.take i).length = i := by rw [List.length_take]; omega
    rw [List.drop_eq_nil_of_le (by omega), List.nil_append, hlen]
    have h2 : j - i = (j - i - 1) + 1 := by omega
    rw [h2, List.drop_succ_cons, List.drop_drop]
    congr 1
    omega
  · rw [List.set_eq_of_length_le (by omega)]

theorem writeByte_length (b : Buf) (i : Nat) (c : Char) :
    (writeByte b i c).data.length = b.data.length := by
  unfold writeByte; split <;> simp

theorem writeByte_lt {b : Buf} {i : Nat} (c : Char) (h : i < b.data.length) :
    writeByte b i c = { data := b.data.set i c, oob := b.oob } := by
  unfold writeByte; rw [if_pos h]

theorem writeBytes_length : ∀ (s : List Char) (b : Buf) (i : Nat),
    (writeBytes b i s).data.length = b.data.length := by
  intro s
  induction s with
  | nil => intro b i; rfl
  | cons c cs ih => intro b i; rw [writeBytes, ih, writeByte_length]

theorem writeBytes_eq : ∀ (s : List Char) (b : Buf) (i : Nat),
    i + s.length ≤ b.data.length →
    writeBytes b i s =
      { data := b.data.take i ++ s ++ b.data.drop (i + s.length), oob := b.oob } := by
  intro s
  induction s with
  | nil =>
    intro b i h
    show b = _
    simp only [List.append_nil, List.nil_append, List.length_nil, Nat.add_zero,
      List.take_append_drop]
  | cons c cs ih =>
    intro b i h
    have hi : i < b.data.length := by
      simp only [List.length_cons] at h; omega
    rw [writeBytes, writeByte_lt c hi,
      ih _ (i + 1) (by simp only [List.length_set, List.length_cons] at h ⊢; omega)]
    simp only [List.length_set]
    rw [take_set_succ c hi, drop_set_of_lt c (by omega)]
    have hidx : i + 1 + cs.length = i + (c :: cs).length := by
      simp only [List.length_cons]; omega
    rw [hidx]
    simp only [List.append_assoc, List.singleton_append, List.cons_append,
      List.nil_append]

/-! ### snprintf lemmas -/

theorem snprintfB_ret (b : Buf) (off n : Nat) (s : List Char) :
    (snprintfB b off n s).2 = s.length := by
  unfold snprintfB; split <;> rfl

theorem snprintfB_fits {b : Buf} {off n : Nat} {s : List Char}
    (hs : s.length < n) (hcap : off + n ≤ b.data.length) :
    snprintfB b off n s =
      ({ data := b.data.take off ++ s ++ nulChar :: b.data.drop (off + s.length + 1),
         oob := b.oob }, s.length) := by
  unfold snprintfB
  rw [if_neg (by omega)]
  have ht : s.take (n - 1) = s := List.take_of_length_le (by omega)
  rw [ht]
  have hws : off + s.length ≤ b.data.length := by omega
  rw [writeBytes_eq s b off hws]
  have hlt : off + s.length <
      (b.data.take off ++ s ++ b.data.drop (off + s.length)).length := by
    simp only [List.length_append, List.length_take, List.length_drop]
    omega
  rw [writeByte_lt nulChar hlt]
  have hlen2 : (b.data.take off ++ s).length = off + s.length := by
    simp only [List.length_append, List.length_take]
    omega
  have hset : (b.data.take off ++ s ++ b.data.drop (off + s.length)).set
        (off + s.length) nulChar =
      b.data.take off ++ s ++ nulChar :: b.data.drop (off + s.length + 1) := by
    rw [List.set_eq_take_cons_drop nulChar
      (by simp only [List.length_append, List.length_take, List.length_drop]; omega)]
    rw [List.take_append_eq_append_take, hlen2]
    rw [List.take_of_length_le (by rw [hlen2]), Nat.sub_self, List.take_zero,
      List.append_nil]
    have hdrop : (b.data.take off ++ s ++ b.data.drop (off + s.length)).drop
        (off + s.length + 1) = b.data.drop (off + s.length + 1) := by
      rw [List.drop_append_eq_append_drop, hlen2,
        List.drop_eq_nil_of_le (by rw [hlen2]; omega), List.nil_append]
      have h1 : off + s.length + 1 - (off + s.length) = 1 := by omega
      rw [h1]
      rw [show (1 : Nat) = 0 + 1 by omega, ← List.drop_drop, List.drop_drop]
      simp
    rw [hdrop]
  rw [hset]

theorem snprintfB_frame {b : Buf} {off n : Nat} {s : List Char}
    (hcap : off + n ≤ b.data.length) :
    (snprintfB b off n s).1.oob = b.oob ∧
    (snprintfB b off n s).1.data.length = b.data.length ∧
    (snprintfB b off n s).1.data.take off = b.data.take off := by
  unfold snprintfB
  by_cases h0 : n = 0
  · rw [if_pos h0]; exact ⟨rfl, rfl, rfl⟩
  · rw [if_neg h0]
    have htl : (s.take (n - 1)).length ≤ n - 1 := by
      rw [List.length_take]; omega
    have hb : off + (s.take (n - 1)).length ≤ b.data.length := by omega
    rw [writeBytes_eq _ b off hb]
    have hlen1 : (b.data.take off ++ s.take (n - 1) ++
        b.data.drop (off + (s.take (n - 1)).length)).length = b.data.length := by
      simp only [List.length_append, List.length_take, List.length_drop]
      omega
    have hlt : off + (s.take (n - 1)).length <
        (b.data.take off ++ s.take (n - 1) ++
          b.data.drop (off + (s.take (n - 1)).length)).length := by
      rw [hlen1]; omega
    rw [writeByte_lt nulChar hlt]
    refine ⟨rfl, by simp only [List.length_set, hlen1], ?_⟩
    rw [take_set_of_le nulChar (by omega)]
    have hoff : (b.data.take off).length = off := by
      rw [List.length_take]; omega
    rw [List.append_assoc, List.take_append_eq_append_take, hoff]
    have h1 : off - off = 0 := by omega
    rw [h1, List.take_zero, List.append_nil, List.take_take]
    have h2 : min off off = off := by omega
    rw [h2]

/-! ### write_event_json lemmas -/

theorem jsonOfEvent_length_pos (e : ZoneEvent) : 0 < (jsonOfEvent e).length := by
  simp [jsonOfEvent]

theorem jsonPiece_false (e : ZoneEvent) : jsonPiece false e = jsonOfEvent e := by
  simp [jsonPiece]

theorem jsonPiece_true (e : ZoneEvent) : jsonPiece true e = ',' :: jsonOfEvent e := by
  simp [jsonPiece]

theorem snprintfB_length (b : Buf) (off n : Nat) (s : List Char) :
    (snprintfB b off n s).1.data.length = b.data.length := by
  unfold snprintfB
  split
  · rfl
  · simp only [writeByte_length, writeBytes_length]

theorem wej_length (e : ZoneEvent) (b : Buf) (off bufsize : Nat) (lc : Bool) :
    (write_event_json e b off bufsize lc).1.data.length = b.data.length := by
  unfold write_event_json
  dsimp only
  split
  · split <;> simp only [snprintfB_length, writeByte_length]
  · split <;> simp only [snprintfB_length]

theorem wej_succ (e : ZoneEvent) (b : Buf) (off bufsize : Nat) (lc : Bool)
    (hcap : off + bufsize ≤ b.data.length)
    (hfit : (jsonPiece lc e).length < bufsize) :
    write_event_json e b off bufsize lc =
      ({ data := b.data.take off ++ jsonPiece lc e ++
           nulChar :: b.data.drop (off + (jsonPiece lc e).length + 1), oob := b.oob },
       ((jsonPiece lc e).length : Int)) := by
  cases lc with
  | false =>
    rw [jsonPiece_false] at hfit ⊢
    unfold write_event_json
    rw [if_neg (by simp)]
    rw [snprintfB_fits hfit hcap]
    rw [if_neg (by omega)]
    simp
  | true =>
    rw [jsonPiece_true] at hfit ⊢
    simp only [List.length_cons] at hfit
    have h2 : 2 ≤ bufsize := by
      have := jsonOfEvent_length_pos e; omega
    unfold write_event_json
    rw [if_pos ⟨rfl, h2⟩]
    have hoffb : off < b.data.length := by omega
    rw [writeByte_lt ',' hoffb]
    have hcap1 : (off + 1) + (bufsize - 1) ≤ (b.data.set off ',').length := by
      rw [List.length_set]; omega
    rw [snprintfB_fits (s := jsonOfEvent e) (by omega) hcap1]
    rw [if_neg (by omega)]
    have htake : (b.data.set off ',').take (off + 1) = b.data.take off ++ [','] :=
      take_set_succ ',' hoffb
    have hdrop : (b.data.set off ',').drop (off + 1 + (jsonOfEvent e).length + 1) =
        b.data.drop (off + 1 + (jsonOfEvent e).length + 1) :=
      drop_set_of_lt ',' (by omega)
    rw [htake, hdrop]
    have hidx : off + 1 + (jsonOfEvent e).length + 1 =
        off + ((jsonOfEvent e).length + 1) + 1 := by omega
    rw [hidx]
    have harr : b.data.take off ++ [','] ++ jsonOfEvent e =
        b.data.take off ++ ',' :: jsonOfEvent e := by
      rw [List.append_assoc, List.singleton_append]
    rw [harr]
    simp [List.length_cons]

theorem wej_fail (e : ZoneEvent) (b : Buf) (off bufsize : Nat) (lc : Bool)
    (hbs : 1 ≤ bufsize)
    (hnofit : bufsize ≤ (jsonPiece lc e).length) :
    (write_event_json e b off bufsize lc).2 = -1 := by
  cases lc with
  | false =>
    rw [jsonPiece_false] at hnofit
    unfold write_event_json
    rw [if_neg (by simp)]
    rw [if_pos (by rw [snprintfB_ret]; omega)]
  | true =>
    rw [jsonPiece_true] at hnofit
    simp only [List.length_cons] at hnofit
    unfold write_event_json
    by_cases h2 : 2 ≤ bufsize
    · rw [if_pos ⟨rfl, h2⟩]
      rw [if_pos (by rw [snprintfB_ret]; omega)]
    · rw [if_neg (by simp; omega)]
      have hb1 : bufsize = 1 := by omega
      rw [if_pos (by rw [snprintfB_ret, hb1]; exact jsonOfEvent_length_pos e)]

theorem wej_frame (e : ZoneEvent) (b : Buf) (off bufsize : Nat) (lc : Bool)
    (hcap : off + bufsize ≤ b.data.length) :
    (write_event_json e b off bufsize lc).1.oob = b.oob ∧
    (write_event_json e b off bufsize lc).1.data.take off = b.data.take off := by
  unfold write_event_json
  dsimp only
  by_cases hc : lc = true ∧ 2 ≤ bufsize
  · rw [if_pos hc]
    have hoffb : off < b.data.length := by omega
    rw [writeByte_lt ',' hoffb]
    have hcap1 : (off + 1) + (bufsize - 1) ≤ (b.data.set off ',').length := by
      rw [List.length_set]; omega
    have hfr := snprintfB_frame (b := { data := b.data.set off ',', oob := b.oob })
      (s := jsonOfEvent e) hcap1
    have h1 : (b.data.set off ',').take off = b.data.take off :=
      take_set_of_le ',' (le_refl off)
    have htk := hfr.2.2
    have hmin : ∀ l : List Char, l.take off = (l.take (off + 1)).take off := by
      intro l
      rw [List.take_take]
      congr 1
      omega
    constructor
    · split <;> exact hfr.1
    · split <;>
      · rw [hmin, htk, ← hmin, h1]
  · rw [if_neg hc]
    have hfr := snprintfB_frame (b := b) (s := jsonOfEvent e) hcap
    constructor
    · split <;> exact hfr.1
    · split <;> exact hfr.2.2

/-! ### The encoder loop -/

theorem jsonItems_append (l : List ZoneEvent) (x : ZoneEvent) (h : l ≠ []) :
    jsonItems (l ++ [x]) = jsonItems l ++ ',' :: jsonOfEvent x := by
  induction l with
  | nil => exact absurd rfl h
  | cons a l ih =>
    cases l with
    | nil => simp [jsonItems]
    | cons b l =>
      have hne : b :: l ≠ [] := by simp
      calc jsonItems ((a :: b :: l) ++ [x])
          = jsonOfEvent a ++ ',' :: jsonItems ((b :: l) ++ [x]) := by
            simp [jsonItems]
        _ = jsonOfEvent a ++ ',' :: (jsonItems (b :: l) ++ ',' :: jsonOfEvent x) := by
            rw [ih hne]
        _ = jsonItems (a :: b :: l) ++ ',' :: jsonOfEvent x := by
            simp [jsonItems]

theorem go_spec : ∀ (events : List ZoneEvent) (first : Bool) (b : Buf) (idx : Nat)
    (pre : List ZoneEvent),
    b.oob = false → idx + 2 ≤ b.data.length →
    b.data.take idx = '[' :: jsonItems pre →
    (first = true ↔ pre = []) →
    (update_event_json_go events first b idx).1.oob = false ∧
    (update_event_json_go events first b idx).1.data.length = b.data.length ∧
    (update_event_json_go events first b idx).2 + 2 ≤ b.data.length ∧
    ∃ k, k ≤ events.length ∧
      (update_event_json_go events first b idx).1.data.take
          (update_event_json_go events first b idx).2 =
        '[' :: jsonItems (pre ++ events.take k) := by
  intro events
  induction events with
  | nil =>
    intro first b idx pre hob hidx htake _
    refine ⟨hob, rfl, hidx, 0, by omega, ?_⟩
    simpa using htake
  | cons e rest ih =>
    intro first b idx pre hob hidx htake hfirst
    rw [update_event_json_go]
    have hbs : 1 ≤ b.data.length - idx - 1 := by omega
    have hcap : idx + (b.data.length - idx - 1) ≤ b.data.length := by omega
    by_cases hfit : (jsonPiece (!first) e).length < b.data.length - idx - 1
    · have hw := wej_succ e b idx (b.data.length - idx - 1) (!first) hcap hfit
      rw [hw]
      dsimp only
      rw [if_neg (by omega)]
      set piece := jsonPiece (!first) e with hpiece
      set b2 : Buf :=
        { data := b.data.take idx ++ piece ++
            nulChar :: b.data.drop (idx + piece.length + 1), oob := b.oob } with hb2
      have hlen2 : b2.data.length = b.data.length := by
        rw [hb2]
        simp only [List.length_append, List.length_take, List.length_cons,
          List.length_drop]
        omega
      have htoNat : ((piece.length : Int)).toNat = piece.length := by
        simp
      rw [htoNat]
      have htail : b2.data.take (idx + piece.length) = '[' :: jsonItems (pre ++ [e]) := by
        have hx : b2.data.take (idx + piece.length) = b.data.take idx ++ piece := by
          rw [hb2]
          have hl : (b.data.take idx ++ piece).length = idx + piece.length := by
            simp only [List.length_append, List.length_take]
            omega
          rw [List.take_append_eq_append_take, hl, Nat.sub_self, List.take_zero,
            List.append_nil]
          exact List.take_of_length_le (le_of_eq hl)
        rw [hx, htake]
        cases first with
        | true =>
          have hpre : pre = [] := hfirst.mp rfl
          subst hpre
          rw [hpiece]
          simp [jsonPiece, jsonItems]
        | false =>
          have hpre : pre ≠ [] := by
            intro hc
            exact absurd (hfirst.mpr hc) (by simp)
          rw [hpiece]
          simp only [Bool.not_false, jsonPiece_true]
          rw [jsonItems_append pre e hpre]
          simp [jsonItems]
      have hrec := ih false b2 (idx + piece.length) (pre ++ [e])
        (by rw [hb2]; exact hob) (by omega) htail (by simp)
      refine ⟨hrec.1, by rw [hrec.2.1, hlen2],
        by rw [hlen2] at hrec; exact hrec.2.2.1, ?_⟩
      obtain ⟨k, hk, hkk⟩ := hrec.2.2.2
      refine ⟨k + 1, by simp; omega, ?_⟩
      rw [List.take_succ_cons]
      have hassoc : pre ++ e :: List.take k rest = (pre ++ [e]) ++ List.take k rest := by
        simp
      rw [hassoc]
      exact hkk
    · have hw := wej_fail e b idx (b.data.length - idx - 1) (!first) hbs (by omega)
      have hfr := wej_frame e b idx (b.data.length - idx - 1) (!first) hcap
      rw [if_pos (by rw [hw]; omega)]
      refine ⟨by rw [hfr.1, hob], wej_length e b idx _ (!first), hidx, 0, by omega, ?_⟩
      rw [hfr.2, htake]
      simp

theorem jsonArray_length (l : List ZoneEvent) :
    (jsonArray l).length = (jsonItems l).length + 2 := by
  simp only [jsonArray, List.length_cons, List.length_append, List.length_singleton,
    List.length_nil]

/-- Claim C1: for every log contents and any destination capacity of at
least 3 bytes, `update_event_json` never stores a byte at an index at or
beyond the capacity (the `oob` flag stays false and the length is kept),
leaves the buffer holding a NUL-terminated rendering of a JSON array
(the array of some first `k` events of the log, possibly the empty
array), and returns the number of bytes written excluding the NUL. -/
theorem C1_encoder_safe (events : List ZoneEvent) (b : Buf)
    (hob : b.oob = false) (hcap : 3 ≤ b.data.length) :
    (update_event_json events b).1.oob = false ∧
    (update_event_json events b).1.data.length = b.data.length ∧
    ∃ k, k ≤ events.length ∧
      (update_event_json events b).1.data.take (update_event_json events b).2 =
        jsonArray (events.take k) ∧
      (update_event_json events b).1.data[(update_event_json events b).2]? =
        some nulChar ∧
      (update_event_json events b).2 = (jsonArray (events.take k)).length := by
  unfold update_event_json
  rw [if_neg (by omega)]
  dsimp only
  rw [writeByte_lt '[' (by omega)]
  have htake1 : (b.data.set 0 '[').take 1 = '[' :: jsonItems [] := by
    rw [take_set_succ '[' (by omega)]
    simp [jsonItems]
  have hgo := go_spec events true { data := b.data.set 0 '[', oob := b.oob } 1 []
    hob (by simp only [List.length_set]; omega) htake1 (by simp)
  obtain ⟨hgo1, hgo2, hgo3, k, hk, hgtake⟩ := hgo
  simp only [List.length_set] at hgo2 hgo3
  simp only [List.nil_append] at hgtake
  set G := update_event_json_go events true { data := b.data.set 0 '[', oob := b.oob } 1
    with hG
  have hG2lt : G.2 < G.1.data.length := by rw [hgo2]; omega
  rw [writeByte_lt ']' hG2lt]
  have hG2lt' : G.2 + 1 < (G.1.data.set G.2 ']').length := by
    rw [List.length_set, hgo2]; omega
  rw [writeByte_lt nulChar hG2lt']
  refine ⟨hgo1, by simp only [List.length_set, hgo2], k, hk, ?_, ?_, ?_⟩
  · rw [take_set_of_le nulChar (le_refl (G.2 + 1))]
    rw [take_set_succ ']' hG2lt, hgtake]
    simp [jsonArray]
  · exact List.getElem?_set_self hG2lt'
  · have hlentake : (G.1.data.take G.2).length = G.2 := by
      rw [List.length_take]
      omega
    rw [hgtake] at hlentake
    simp only [List.length_cons] at hlentake
    rw [jsonArray_length]
    omega

/-- A closed instance of C1: the empty log rendered into a capacity-3
buffer. -/
theorem C1_encoder_safe_witness :
    ((mkBuf 3).oob = false ∧ 3 ≤ (mkBuf 3).data.length) ∧
    ((update_event_json [] (mkBuf 3)).1.oob = false ∧
     (update_event_json [] (mkBuf 3)).1.data.length = (mkBuf 3).data.length ∧
     ∃ k, k ≤ ([] : List ZoneEvent).length ∧
       (update_event_json [] (mkBuf 3)).1.data.take (update_event_json [] (mkBuf 3)).2 =
         jsonArray (([] : List ZoneEvent).take k) ∧
       (update_event_json [] (mkBuf 3)).1.data[(update_event_json [] (mkBuf 3)).2]? =
         some nulChar ∧
       (update_event_json [] (mkBuf 3)).2 =
         (jsonArray (([] : List ZoneEvent).take k)).length) :=
  ⟨⟨rfl, by decide⟩, C1_encoder_safe [] (mkBuf 3) rfl (by decide)⟩

/-- Claim C7: with destination capacity below 3 bytes the encoder writes
nothing at all and returns 0. -/
theorem C7_min_capacity (events : List ZoneEvent) (b : Buf)
    (hcap : b.data.length < 3) :
    update_event_json events b = (b, 0) := by
  unfold update_event_json
  rw [if_pos hcap]

/-- A closed instance of C7 at capacity 2. -/
theorem C7_min_capacity_witness :
    (mkBuf 2).data.length < 3 ∧
    update_event_json [c6ev, c6ev] (mkBuf 2) = (mkBuf 2, 0) :=
  ⟨by decide, C7_min_capacity [c6ev, c6ev] (mkBuf 2) (by decide)⟩

/-- Claim C6, counterexample: at capacity 25 each scenario-C event
renders as 24 characters (not 23), so even the first event does not fit
(it would need 1 + 24 + 1 + 1 = 27 bytes including bracket and NUL):
the output is the empty array, not the claimed one-event array. -/
theorem C6_capacity25_counterexample :
    (jsonOfEvent c6ev).length = 24 ∧
    (update_event_json [c6ev, c6ev] (mkBuf 25)).2 = 2 ∧
    (update_event_json [c6ev, c6ev] (mkBuf 25)).1.data.take 3 =
      ['[', ']', nulChar] := by
  refine ⟨by decide, by decide, by decide⟩

/-- Claim C6, amended: with capacity 27 the encoder keeps the first
24-character event in full, drops the second entirely, closes the array
and NUL-terminates, returning 26 (27 bytes written including the NUL). -/
theorem C6_truncation :
    (update_event_json [c6ev, c6ev] (mkBuf 27)).2 = 26 ∧
    (update_event_json [c6ev, c6ev] (mkBuf 27)).1.data =
      '[' :: (jsonOfEvent c6ev ++ (']' :: [nulChar])) ∧
    (update_event_json [c6ev, c6ev] (mkBuf 27)).1.data.take 26 =
      jsonArray [c6ev] ∧
    (update_event_json [c6ev, c6ev] (mkBuf 27)).1.oob = false := by
  refine ⟨by decide, by decide, by decide, by decide⟩

/-! ### Event-log lemmas -/

theorem push_event_take (log : List ZoneEvent) (e : ZoneEvent)
    (h : log.length ≤ MAX_NUM_EVENTS) :
    push_event log e = (e :: log).take MAX_NUM_EVENTS := by
  unfold push_event
  dsimp only
  by_cases hl : log.length = MAX_NUM_EVENTS
  · rw [if_pos hl]
    have h20 : MAX_NUM_EVENTS = 19 + 1 := rfl
    rw [h20, List.take_succ_cons]
    rw [List.dropLast_eq_take, hl]
    rfl
  · rw [if_neg hl]
    exact (List.take_of_length_le (by simp only [List.length_cons]; omega)).symm

theorem foldl_push_event : ∀ (es acc : List ZoneEvent),
    acc.length ≤ MAX_NUM_EVENTS →
    es.foldl push_event acc = (es.reverse ++ acc).take MAX_NUM_EVENTS := by
  intro es
  induction es with
  | nil =>
    intro acc h
    simp only [List.foldl_nil, List.reverse_nil, List.nil_append]
    exact (List.take_of_length_le h).symm
  | cons e rest ih =>
    intro acc h
    rw [List.foldl_cons, push_event_take acc e h]
    rw [ih _ (by rw [List.length_take]; omega)]
    rw [List.reverse_cons, List.append_assoc, List.singleton_append]
    rw [List.take_append_eq_append_take, List.take_append_eq_append_take]
    congr 1
    rw [List.take_take]
    congr 1
    omega

/-- Claim C5: after any sequence of pushes starting from the empty log,
the log is exactly the reversed sequence cut to the capacity of 20 (the
most recent pushes, newest first), so its length is min(n, 20) and never
exceeds 20; pushing 25 events with ids 0..24 leaves ids 24 down to 5,
newest (front) 24 and oldest (back) 5. -/
theorem C5_log_capacity :
    (∀ es : List ZoneEvent,
      es.foldl push_event [] = es.reverse.take MAX_NUM_EVENTS) ∧
    (∀ es : List ZoneEvent,
      (es.foldl push_event []).length = min es.length MAX_NUM_EVENTS) ∧
    (∀ es : List ZoneEvent,
      (es.foldl push_event []).length ≤ MAX_NUM_EVENTS) ∧
    (((List.range 25).map mkIdEvent).foldl push_event []).map
        (fun e => e.info.id) =
      [24, 23, 22, 21, 20, 19, 18, 17, 16, 15, 14, 13, 12, 11, 10, 9, 8, 7, 6, 5] ∧
    (((List.range 25).map mkIdEvent).foldl push_event []).head?.map
        (fun e => e.info.id) = some 24 ∧
    (((List.range 25).map mkIdEvent).foldl push_event []).getLast?.map
        (fun e => e.info.id) = some 5 := by
  have hbase : ∀ es : List ZoneEvent,
      es.foldl push_event [] = es.reverse.take MAX_NUM_EVENTS := by
    intro es
    rw [foldl_push_event es [] (by simp [MAX_NUM_EVENTS]), List.append_nil]
  refine ⟨hbase, ?_, ?_, by decide, by decide, by decide⟩
  · intro es
    rw [hbase es, List.length_take, List.length_reverse, Nat.min_comm]
  · intro es
    rw [hbase es, List.length_take]
    omega

/-! ### Hysteresis lemmas -/

theorem observe_range {z : ZoneInfo} (raw : Bool)
    (h0 : HYST_MIN ≤ z.count) (h1 : z.count ≤ HYST_MAX) :
    HYST_MIN ≤ (observe z raw).count ∧ (observe z raw).count ≤ HYST_MAX := by
  simp only [HYST_MIN, HYST_MAX] at h0 h1 ⊢
  cases raw <;>
    · simp only [observe, HYST_MIN, HYST_MAX, HYST_THRESH_ON, HYST_THRESH_OFF]
      split_ifs <;> constructor <;> (try dsimp only) <;> omega

theorem observeSeq_range : ∀ (raws : List Bool) (z : ZoneInfo),
    HYST_MIN ≤ z.count → z.count ≤ HYST_MAX → ∀ n : Nat,
    HYST_MIN ≤ (observeSeq z (raws.take n)).count ∧
      (observeSeq z (raws.take n)).count ≤ HYST_MAX := by
  intro raws
  induction raws with
  | nil =>
    intro z h0 h1 n
    simp only [List.take_nil, observeSeq, List.foldl_nil]
    exact ⟨h0, h1⟩
  | cons r rs ih =>
    intro z h0 h1 n
    cases n with
    | zero =>
      simp only [List.take_zero, observeSeq, List.foldl_nil]
      exact ⟨h0, h1⟩
    | succ n =>
      rw [List.take_succ_cons]
      show HYST_MIN ≤ ((r :: rs.take n).foldl observe z).count ∧ _
      rw [List.foldl_cons]
      have hr := observe_range (z := z) r h0 h1
      exact ih (observe z r) hr.1 hr.2 n

/-- Claim C2: starting inside [HYST_MIN, HYST_MAX], the hysteresis
counter stays inside [0, 500] after every observation of any raw-reading
sequence; moreover the demand update of one observation compares the
already-clamped counter (the final `count` field) against the
thresholds. -/
theorem C2_counter_clamped (z : ZoneInfo) (raws : List Bool)
    (h0 : HYST_MIN ≤ z.count) (h1 : z.count ≤ HYST_MAX) :
    (∀ n : Nat, HYST_MIN ≤ (observeSeq z (raws.take n)).count ∧
        (observeSeq z (raws.take n)).count ≤ HYST_MAX) ∧
    (∀ (w : ZoneInfo) (raw : Bool),
      (observe w raw).demand =
        if raw then
          (if (observe w raw).count < HYST_THRESH_OFF then demandFalse
           else w.demand)
        else
          (if HYST_THRESH_ON < (observe w raw).count then demandTrue
           else w.demand)) := by
  refine ⟨observeSeq_range raws z h0 h1, ?_⟩
  intro w raw
  cases raw <;> rfl

/-- A closed instance of C2: the midpoint zone observed twice. -/
theorem C2_counter_clamped_witness :
    (HYST_MIN ≤ midZone.count ∧ midZone.count ≤ HYST_MAX) ∧
    (HYST_MIN ≤ (observeSeq midZone ([true, false].take 2)).count ∧
      (observeSeq midZone ([true, false].take 2)).count ≤ HYST_MAX) :=
  ⟨⟨by decide, by decide⟩,
    (C2_counter_clamped midZone [true, false] (by decide) (by decide)).1 2⟩

theorem clamp_up_eq_min (c : Int) :
    (if c > HYST_MAX then HYST_MAX else c) = min c HYST_MAX := by
  simp only [HYST_MAX]
  split_ifs <;> omega

theorem observe_false_count (z : ZoneInfo) :
    (observe z false).count = min (z.count + 5) HYST_MAX := by
  show (if z.count + 5 > HYST_MAX then HYST_MAX else z.count + 5) = _
  exact clamp_up_eq_min (z.count + 5)

theorem observe_false_demand (z : ZoneInfo) :
    (observe z false).demand =
      if HYST_THRESH_ON < min (z.count + 5) HYST_MAX then demandTrue
      else z.demand := by
  show (if (if z.count + 5 > HYST_MAX then HYST_MAX else z.count + 5) >
      HYST_THRESH_ON then demandTrue else z.demand) = _
  rw [clamp_up_eq_min (z.count + 5)]

theorem minZone_run (k : Nat) :
    (observeSeq minZone (List.replicate k false)).count =
      min (5 * (k : Int)) HYST_MAX ∧
    (observeSeq minZone (List.replicate k false)).demand =
      (if 81 ≤ k then demandTrue else demandUnknown) := by
  induction k with
  | zero =>
    constructor
    · decide
    · decide
  | succ k ih =>
    rw [List.replicate_succ']
    unfold observeSeq at ih ⊢
    rw [List.foldl_append, List.foldl_cons, List.foldl_nil]
    constructor
    · rw [observe_false_count, ih.1]
      simp only [HYST_MAX]
      push_cast
      omega
    · rw [observe_false_demand, ih.1, ih.2]
      simp only [HYST_MAX, HYST_THRESH_ON, demandTrue, demandUnknown]
      split_ifs <;> first
      | rfl
      | omega

set_option maxRecDepth 8000 in
/-- Claim C3, counterexample: after 30 consecutive active readings from
counter 250, the counter is exactly 400 but the demand is still Unknown
and no event has been logged, because the source only switches demand on
when the counter strictly exceeds HYST_THRESH_ON = 400. -/
theorem C3_scenarioA_counterexample :
    (pollSeq (activeInputs 30) midState).zone_list = [midZone30] ∧
    (pollSeq (activeInputs 30) midState).zone_events = [] ∧
    midZone30.count = HYST_THRESH_ON ∧ midZone30.demand ≠ demandTrue := by
  refine ⟨by decide, by decide, by decide, by decide⟩

set_option maxRecDepth 8000 in
/-- Claim C3, amended: 30 active readings bring the counter to exactly
400 with the demand still Unknown; the demand becomes Active on the 31st
observation (counter 405 > 400), and that observation logs a single
event whose JSON rendering carries on:1. -/
theorem C3_scenarioA :
    (pollSeq (activeInputs 30) midState).zone_list = [midZone30] ∧
    (pollSeq (activeInputs 31) midState).zone_list = [midEvent31.info] ∧
    (pollSeq (activeInputs 31) midState).zone_events = [midEvent31] ∧
    midEvent31.demand = demandTrue ∧
    jsonOfEvent midEvent31 = "\x7b\"id\":0,\"t\":1000,\"on\":1\x7d".data := by
  refine ⟨by decide, by decide, by decide, by decide, by decide⟩

set_option maxRecDepth 8000 in
/-- Claim C4, counterexample: starting from counter MIN = 0, after
ceil((THRESH_ON - MIN)/step) = 80 consecutive active observations the
counter is exactly 400 and the demand is still Unknown, so the demand
has not flipped within 80 observations. -/
theorem C4_latency_counterexample :
    (observeSeq minZone (List.replicate 80 false)).count = HYST_THRESH_ON ∧
    (observeSeq minZone (List.replicate 80 false)).demand ≠ demandTrue := by
  refine ⟨by decide, by decide⟩

/-- Claim C4, amended: from counter MIN = 0 under continuous active
readings, the counter after k observations is min(5k, 500) and the
demand is Active exactly when k ≥ 81 = ceil((THRESH_ON - MIN)/step) + 1:
the flip happens within 81 observations and in no fewer, because the
comparison against THRESH_ON is strict and 80 steps only reach 400. -/
theorem C4_latency_bound (k : Nat) :
    ((observeSeq minZone (List.replicate k false)).demand = demandTrue ↔ 81 ≤ k) ∧
    (observeSeq minZone (List.replicate k false)).count =
      min (5 * (k : Int)) HYST_MAX := by
  have h := minZone_run k
  refine ⟨?_, h.1⟩
  rw [h.2]
  by_cases hk : 81 ≤ k
  · rw [if_pos hk]
    exact ⟨fun _ => hk, fun _ => rfl⟩
  · rw [if_neg hk]
    constructor
    · intro h01
      exact absurd h01 (by decide)
    · intro h81
      exact absurd h81 hk

/-! ### Rendering characters and lengths -/

theorem digitChar10_ne_nul (d : Nat) : digitChar10 d ≠ nulChar := by
  unfold digitChar10
  split_ifs <;> decide

theorem natDigitsAux_ne_nul : ∀ (fuel n : Nat), ∀ c ∈ natDigitsAux fuel n,
    c ≠ nulChar := by
  intro fuel
  induction fuel with
  | zero => intro n c hc; simp [natDigitsAux] at hc
  | succ fuel ih =>
    intro n c hc
    rw [natDigitsAux] at hc
    by_cases h10 : n < 10
    · rw [if_pos h10] at hc
      simp only [List.mem_singleton] at hc
      rw [hc]
      exact digitChar10_ne_nul n
    · rw [if_neg h10] at hc
      rcases List.mem_append.mp hc with h | h
      · exact ih _ c h
      · simp only [List.mem_singleton] at h
        rw [h]
        exact digitChar10_ne_nul _

theorem intToChars_ne_nul (i : Int) : ∀ c ∈ intToChars i, c ≠ nulChar := by
  intro c hc
  unfold intToChars natToChars at hc
  split_ifs at hc with hneg
  · rcases List.mem_cons.mp hc with h | h
    · rw [h]; decide
    · exact natDigitsAux_ne_nul _ _ c h
  · exact natDigitsAux_ne_nul _ _ c hc

theorem jsonOfEvent_ne_nul (e : ZoneEvent) : ∀ c ∈ jsonOfEvent e, c ≠ nulChar := by
  intro c hc hnul
  subst hnul
  have hid := intToChars_ne_nul e.info.id nulChar
  have ht := intToChars_ne_nul e.time nulChar
  simp only [jsonOfEvent, List.mem_cons, List.mem_append, List.mem_singleton] at hc
  split_ifs at hc <;>
    rcases hc with h|h|h|h|h|h|h|h|h|h|h|h|h|h|h|h|h|h|h|h <;>
    first
    | exact absurd h (by decide)
    | exact hid h rfl
    | exact ht h rfl
    | simp_all

theorem cString_of_ne_nul (s rest : List Char) (h : ∀ c ∈ s, c ≠ nulChar) :
    cString (s ++ nulChar :: rest) = s := by
  unfold cString
  rw [List.takeWhile_append_of_pos (by intro a ha; simpa using h a ha)]
  rw [List.takeWhile_cons_of_neg (by simp)]
  rw [List.append_nil]

theorem natDigitsAux_length : ∀ (fuel n k : Nat), n < 10 ^ k →
    (natDigitsAux fuel n).length ≤ max k 1 := by
  intro fuel
  induction fuel with
  | zero =>
    intro n k hk
    simp [natDigitsAux]
  | succ fuel ih =>
    intro n k hk
    rw [natDigitsAux]
    by_cases h10 : n < 10
    · rw [if_pos h10]
      simp only [List.length_singleton]
      omega
    · rw [if_neg h10]
      have hk2 : 2 ≤ k := by
        by_contra hlt
        interval_cases k <;> simp_all <;> omega
      have hdiv : n / 10 < 10 ^ (k - 1) := by
        have h1 : 10 ^ k = 10 ^ (k - 1) * 10 := by
          rw [← pow_succ]
          congr 1
          omega
        rw [Nat.div_lt_iff_lt_mul (by omega)]
        omega
      have := ih (n / 10) (k - 1) hdiv
      simp only [List.length_append, List.length_singleton]
      omega

theorem intToChars_length (i : Int) (k : Nat) (hk : 1 ≤ k)
    (h : i.natAbs < 10 ^ k) : (intToChars i).length ≤ k + 1 := by
  unfold intToChars natToChars
  split_ifs with hneg
  · simp only [List.length_cons]
    have := natDigitsAux_length (i.natAbs + 1) i.natAbs k h
    omega
  · have h2 : i.toNat < 10 ^ k := by
      have : i.toNat ≤ i.natAbs := by omega
      omega
    have := natDigitsAux_length (i.toNat + 1) i.toNat k h2
    omega

theorem jsonOfEvent_length_eq (e : ZoneEvent) :
    (jsonOfEvent e).length =
      (intToChars e.info.id).length + (intToChars e.time).length + 19 := by
  simp only [jsonOfEvent, List.length_cons, List.length_append,
    List.length_singleton, List.length_nil]
  split_ifs <;> simp only [List.length_singleton, List.length_cons,
    List.length_nil] <;> omega

theorem observe_id (z : ZoneInfo) (raw : Bool) : (observe z raw).id = z.id := by
  cases raw <;>
    · show (if _ then _ else _ : ZoneInfo).id = z.id
      split_ifs <;> rfl

/-! ### The zone loop of read_all_zones -/

theorem pollFold_main (high : Nat → Bool) (now : Int) :
    ∀ (zones : List ZoneInfo) (acc : PollAcc),
    (zones.foldl (pollZone high now) acc).zones =
        acc.zones ++ zones.map (fun z => observe z (high z.pin)) ∧
    (zones.foldl (pollZone high now) acc).events =
        (newEvents high now zones).foldl push_event acc.events ∧
    (zones.foldl (pollZone high now) acc).new_event =
        (acc.new_event || zones.any
          (fun z => decide (z.demand ≠ (observe z (high z.pin)).demand))) ∧
    (zones.foldl (pollZone high now) acc).buff.data.length =
      acc.buff.data.length := by
  intro zones
  induction zones with
  | nil =>
    intro acc
    refine ⟨by simp, by simp [newEvents], by simp, rfl⟩
  | cons z zs ih =>
    intro acc
    rw [List.foldl_cons]
    by_cases hch : z.demand ≠ (observe z (high z.pin)).demand
    · have hstep : pollZone high now acc z =
          { zones := acc.zones ++ [observe z (high z.pin)],
            events := push_event acc.events
              { info := observe z (high z.pin), time := now,
                demand := (observe z (high z.pin)).demand },
            buff := (write_event_json
              { info := observe z (high z.pin), time := now,
                demand := (observe z (high z.pin)).demand }
              acc.buff 0 acc.buff.data.length false).1,
            pubs := acc.pubs ++ [cString (write_event_json
              { info := observe z (high z.pin), time := now,
                demand := (observe z (high z.pin)).demand }
              acc.buff 0 acc.buff.data.length false).1.data],
            new_event := true } := by
        unfold pollZone
        dsimp only
        rw [if_pos hch]
      have hnew : newEvents high now (z :: zs) =
          { info := observe z (high z.pin), time := now,
            demand := (observe z (high z.pin)).demand } :: newEvents high now zs := by
        unfold newEvents
        rw [List.filterMap_cons]
        dsimp only
        rw [if_pos hch]
      rw [hstep, hnew]
      obtain ⟨ih1, ih2, ih3, ih4⟩ := ih _
      refine ⟨?_, ?_, ?_, ?_⟩
      · rw [ih1]
        simp
      · rw [ih2]
        rw [List.foldl_cons]
      · rw [ih3]
        simp [hch]
      · rw [ih4]
        dsimp only
        rw [wej_length]
    · have hstep : pollZone high now acc z =
          { acc with zones := acc.zones ++ [observe z (high z.pin)] } := by
        unfold pollZone
        dsimp only
        rw [if_neg hch]
      have hnew : newEvents high now (z :: zs) = newEvents high now zs := by
        unfold newEvents
        rw [List.filterMap_cons]
        dsimp only
        rw [if_neg hch]
      rw [hstep, hnew]
      obtain ⟨ih1, ih2, ih3, ih4⟩ := ih _
      refine ⟨?_, ?_, ?_, ?_⟩
      · rw [ih1]
        simp
      · rw [ih2]
      · rw [ih3]
        have hf : z.demand = (observe z (high z.pin)).demand := not_not.mp hch
        simp [List.any_cons, ← hf]
      · rw [ih4]

theorem pollFold_pubs (high : Nat → Bool) (now : Int) :
    ∀ (zones : List ZoneInfo) (acc : PollAcc),
    acc.buff.oob = false →
    (∀ z ∈ zones,
      (jsonOfEvent { info := observe z (high z.pin), time := now,
                     demand := (observe z (high z.pin)).demand }).length <
        acc.buff.data.length) →
    (zones.foldl (pollZone high now) acc).pubs =
        acc.pubs ++ (newEvents high now zones).map jsonOfEvent ∧
    (zones.foldl (pollZone high now) acc).buff.oob = false := by
  intro zones
  induction zones with
  | nil =>
    intro acc hob _
    exact ⟨by simp [newEvents], hob⟩
  | cons z zs ih =>
    intro acc hob hfit
    rw [List.foldl_cons]
    have hz := hfit z (by simp)
    by_cases hch : z.demand ≠ (observe z (high z.pin)).demand
    · set ev : ZoneEvent :=
        { info := observe z (high z.pin), time := now,
          demand := (observe z (high z.pin)).demand } with hev
      have hw := wej_succ ev acc.buff 0 acc.buff.data.length false (by omega)
        (by rw [jsonPiece_false]; exact hz)
      have hstep : pollZone high now acc z =
          { zones := acc.zones ++ [observe z (high z.pin)],
            events := push_event acc.events ev,
            buff := (write_event_json ev acc.buff 0 acc.buff.data.length false).1,
            pubs := acc.pubs ++ [cString (write_event_json ev acc.buff 0
              acc.buff.data.length false).1.data],
            new_event := true } := by
        unfold pollZone
        dsimp only
        rw [if_pos hch]
      have hnew : newEvents high now (z :: zs) = ev :: newEvents high now zs := by
        unfold newEvents
        rw [List.filterMap_cons]
        dsimp only
        rw [if_pos hch]
      rw [hstep, hnew]
      have hbuf : (write_event_json ev acc.buff 0 acc.buff.data.length false).1 =
          { data := jsonPiece false ev ++ nulChar ::
              acc.buff.data.drop ((jsonPiece false ev).length + 1),
            oob := acc.buff.oob } := by
        rw [hw]
        simp
      have hcs : cString (write_event_json ev acc.buff 0
          acc.buff.data.length false).1.data = jsonOfEvent ev := by
        rw [hbuf]
        dsimp only
        rw [jsonPiece_false]
        exact cString_of_ne_nul _ _ (jsonOfEvent_ne_nul ev)
      have hlen : (write_event_json ev acc.buff 0
          acc.buff.data.length false).1.data.length = acc.buff.data.length :=
        wej_length ev acc.buff 0 acc.buff.data.length false
      have hoob : (write_event_json ev acc.buff 0
          acc.buff.data.length false).1.oob = false := by
        rw [hbuf]
        exact hob
      obtain ⟨ihp, ihb⟩ := ih
        { zones := acc.zones ++ [observe z (high z.pin)],
          events := push_event acc.events ev,
          buff := (write_event_json ev acc.buff 0 acc.buff.data.length false).1,
          pubs := acc.pubs ++ [cString (write_event_json ev acc.buff 0
            acc.buff.data.length false).1.data],
          new_event := true }
        hoob
        (by
          intro w hw2
          dsimp only
          rw [hlen]
          exact hfit w (by simp [hw2]))
      refine ⟨?_, ihb⟩
      rw [ihp]
      dsimp only
      rw [hcs]
      simp [List.append_assoc]
    · have hstep : pollZone high now acc z =
          { acc with zones := acc.zones ++ [observe z (high z.pin)] } := by
        unfold pollZone
        dsimp only
        rw [if_neg hch]
      have hnew : newEvents high now (z :: zs) = newEvents high now zs := by
        unfold newEvents
        rw [List.filterMap_cons]
        dsimp only
        rw [if_neg hch]
      rw [hstep, hnew]
      obtain ⟨ihp, ihb⟩ := ih { acc with zones := acc.zones ++ [observe z (high z.pin)] }
        hob (by intro w hw2; exact hfit w (by simp [hw2]))
      exact ⟨ihp, ihb⟩

/-! ### read_all_zones -/

theorem read_all_zones_zone_list (high : Nat → Bool) (now : Int)
    (binit : List Char) (s : SysState) :
    (read_all_zones high now binit s).1.zone_list =
      s.zone_list.map (fun z => observe z (high z.pin)) := by
  unfold read_all_zones
  dsimp only
  have h := (pollFold_main high now s.zone_list
    { zones := [], events := s.zone_events, buff := { data := binit, oob := false },
      pubs := [], new_event := false }).1
  rw [List.nil_append] at h
  split <;> exact h

theorem read_all_zones_events (high : Nat → Bool) (now : Int)
    (binit : List Char) (s : SysState) :
    (read_all_zones high now binit s).1.zone_events =
      (newEvents high now s.zone_list).foldl push_event s.zone_events := by
  unfold read_all_zones
  dsimp only
  have h := (pollFold_main high now s.zone_list
    { zones := [], events := s.zone_events, buff := { data := binit, oob := false },
      pubs := [], new_event := false }).2.1
  split <;> exact h

theorem read_all_zones_pubs (high : Nat → Bool) (now : Int)
    (binit : List Char) (s : SysState) :
    (read_all_zones high now binit s).2 =
      (s.zone_list.foldl (pollZone high now)
        { zones := [], events := s.zone_events,
          buff := { data := binit, oob := false },
          pubs := [], new_event := false }).pubs := by
  unfold read_all_zones
  dsimp only
  split <;> rfl

theorem newEvents_mem (high : Nat → Bool) (now : Int) (zones : List ZoneInfo) :
    ∀ e ∈ newEvents high now zones, ∃ z ∈ zones,
      e = { info := observe z (high z.pin), time := now,
            demand := (observe z (high z.pin)).demand } ∧
      z.demand ≠ e.demand := by
  intro e he
  unfold newEvents at he
  rw [List.mem_filterMap] at he
  obtain ⟨z, hz, hfz⟩ := he
  dsimp only at hfz
  split_ifs at hfz with hch
  refine ⟨z, hz, (Option.some.inj hfz).symm, ?_⟩
  rw [← Option.some.inj hfz]
  exact hch

theorem observe_true_demand (z : ZoneInfo) :
    (observe z true).demand =
      if (if z.count - 1 < HYST_MIN then HYST_MIN else z.count - 1) <
          HYST_THRESH_OFF then demandFalse
      else z.demand := rfl

theorem observe_demand_cases (z : ZoneInfo) (raw : Bool) :
    (observe z raw).demand = z.demand ∨
    (observe z raw).demand = demandTrue ∨
    (observe z raw).demand = demandFalse := by
  cases raw
  · rw [observe_false_demand]
    split_ifs <;> first
    | (left; rfl)
    | (right; left; rfl)
    | (right; right; rfl)
  · rw [observe_true_demand]
    split_ifs <;> first
    | (left; rfl)
    | (right; left; rfl)
    | (right; right; rfl)

theorem mem_push_event (log : List ZoneEvent) (x e : ZoneEvent)
    (h : e ∈ push_event log x) : e = x ∨ e ∈ log := by
  unfold push_event at h
  dsimp only at h
  rcases List.mem_cons.mp h with h1 | h1
  · exact Or.inl h1
  · right
    split_ifs at h1
    · exact (List.dropLast_sublist log).subset h1
    · exact h1

theorem mem_foldl_push : ∀ (l acc : List ZoneEvent) (e : ZoneEvent),
    e ∈ l.foldl push_event acc → e ∈ l ∨ e ∈ acc := by
  intro l
  induction l with
  | nil => intro acc e h; exact Or.inr h
  | cons x xs ih =>
    intro acc e h
    rw [List.foldl_cons] at h
    rcases ih (push_event acc x) e h with h1 | h1
    · exact Or.inl (List.mem_cons_of_mem x h1)
    · rcases mem_push_event acc x e h1 with h2 | h2
      · exact Or.inl (h2 ▸ List.mem_cons_self x xs)
      · exact Or.inr h2

theorem newEvents_demand (high : Nat → Bool) (now : Int) (zones : List ZoneInfo) :
    ∀ e ∈ newEvents high now zones,
      e.demand = demandTrue ∨ e.demand = demandFalse := by
  intro e he
  obtain ⟨z, _, heq, hne⟩ := newEvents_mem high now zones e he
  rcases observe_demand_cases z (high z.pin) with h | h | h
  · exact absurd (by rw [heq]; exact h) (Ne.symm hne)
  · left; rw [heq]; exact h
  · right; rw [heq]; exact h

theorem pollSeq_demand_inv : ∀ (inputs : List ((Nat → Bool) × Int × List Char))
    (s : SysState),
    (∀ e ∈ s.zone_events, e.demand = demandTrue ∨ e.demand = demandFalse) →
    ∀ e ∈ (pollSeq inputs s).zone_events,
      e.demand = demandTrue ∨ e.demand = demandFalse := by
  intro inputs
  induction inputs with
  | nil => intro s hs e he; exact hs e he
  | cons i is ih =>
    intro s hs e he
    rw [pollSeq, List.foldl_cons] at he
    refine ih _ ?_ e he
    intro w hw
    rw [read_all_zones_events] at hw
    rcases mem_foldl_push _ _ w hw with h1 | h1
    · exact newEvents_demand _ _ _ w h1
    · exact hs w h1

theorem pollsNext_nonneg (p : Int) : 0 ≤ pollsNext p := by
  unfold pollsNext
  dsimp only
  split_ifs with h
  · exact le_refl 0
  · omega

/-- Claim C8: demand only moves along Unknown-to-Active,
Unknown-to-Inactive, Active-to-Inactive and Inactive-to-Active (a change
always lands on Active or Inactive, and a resolved demand never becomes
Unknown again); one poll pushes exactly one event per zone whose demand
changed (the log is the push-fold of those events) and nothing else; and
in every state reachable from the initial state every logged event has
demand Active or Inactive, never Unknown. -/
theorem C8_demand_transitions (high : Nat → Bool) (now : Int)
    (binit : List Char) (s : SysState) :
    (read_all_zones high now binit s).1.zone_list =
      s.zone_list.map (fun z => observe z (high z.pin)) ∧
    (∀ (z : ZoneInfo) (raw : Bool),
      ((observe z raw).demand ≠ z.demand →
        ((observe z raw).demand = demandTrue ∨
         (observe z raw).demand = demandFalse)) ∧
      (z.demand ≠ demandUnknown → (observe z raw).demand ≠ demandUnknown)) ∧
    (read_all_zones high now binit s).1.zone_events =
      (newEvents high now s.zone_list).foldl push_event s.zone_events ∧
    (∀ e ∈ newEvents high now s.zone_list,
      e.demand = demandTrue ∨ e.demand = demandFalse) ∧
    (∀ inputs : List ((Nat → Bool) × Int × List Char),
      ∀ e ∈ (pollSeq inputs init_state).zone_events,
        e.demand = demandTrue ∨ e.demand = demandFalse) := by
  refine ⟨read_all_zones_zone_list high now binit s, ?_,
    read_all_zones_events high now binit s,
    newEvents_demand high now s.zone_list, ?_⟩
  · intro z raw
    constructor
    · intro hne
      rcases observe_demand_cases z raw with h | h | h
      · exact absurd h hne
      · exact Or.inl h
      · exact Or.inr h
    · intro hz0
      rcases observe_demand_cases z raw with h | h | h
      · rw [h]; exact hz0
      · rw [h]; decide
      · rw [h]; decide
  · intro inputs
    exact pollSeq_demand_inv inputs init_state
      (by intro e he; exact absurd he (List.not_mem_nil e))

/-- A closed instance of C8: the transition facts at a concrete zone. -/
theorem C8_demand_transitions_witness :
    ((observe midZone30 false).demand ≠ midZone30.demand →
      ((observe midZone30 false).demand = demandTrue ∨
       (observe midZone30 false).demand = demandFalse)) ∧
    (midZone30.demand ≠ demandUnknown →
      (observe midZone30 false).demand ≠ demandUnknown) :=
  (C8_demand_transitions (fun _ => false) 0 [] init_state).2.1 midZone30 false

/-- Claim C9: every transition publishes exactly the single new event,
rendered with no leading comma and no array brackets into the 64-byte
stack buffer; for every in-range event (int-sized id and timestamp) the
rendering plus its NUL always fits in the 64 bytes, so the
skip-on-overflow case never arises and the payload is never truncated. -/
theorem C9_single_event_publish (high : Nat → Bool) (now : Int)
    (binit : List Char) (s : SysState) (hb : binit.length = 64)
    (hnow : now.natAbs < 2 ^ 31)
    (hid : ∀ z ∈ s.zone_list, z.id.natAbs < 2 ^ 31) :
    (read_all_zones high now binit s).2 =
      (newEvents high now s.zone_list).map jsonOfEvent ∧
    ∀ e ∈ newEvents high now s.zone_list, (jsonOfEvent e).length + 1 ≤ 64 := by
  have hpow : (2 : Nat) ^ 31 < 10 ^ 10 := by norm_num
  have hfit : ∀ z ∈ s.zone_list,
      (jsonOfEvent { info := observe z (high z.pin), time := now,
                     demand := (observe z (high z.pin)).demand }).length < 64 := by
    intro z hz
    rw [jsonOfEvent_length_eq]
    dsimp only
    rw [observe_id]
    have h1 : (intToChars z.id).length ≤ 11 :=
      intToChars_length z.id 10 (by omega) (by have := hid z hz; omega)
    have h2 : (intToChars now).length ≤ 11 :=
      intToChars_length now 10 (by omega) (by omega)
    omega
  have hp := pollFold_pubs high now s.zone_list
    { zones := [], events := s.zone_events, buff := { data := binit, oob := false },
      pubs := [], new_event := false }
    rfl
    (by
      intro z hz
      dsimp only
      rw [hb]
      exact hfit z hz)
  constructor
  · rw [read_all_zones_pubs, hp.1, List.nil_append]
  · intro e he
    obtain ⟨z, hz, heq, _⟩ := newEvents_mem high now s.zone_list e he
    rw [heq]
    have := hfit z hz
    omega

/-- A closed instance of C9 at the initial state. -/
theorem C9_single_event_publish_witness :
    ((List.replicate 64 ' ').length = 64 ∧ (1000 : Int).natAbs < 2 ^ 31) ∧
    ((read_all_zones (fun _ => false) 1000 (List.replicate 64 ' ')
        init_state).2 =
      (newEvents (fun _ => false) 1000 init_state.zone_list).map jsonOfEvent ∧
     ∀ e ∈ newEvents (fun _ => false) 1000 init_state.zone_list,
       (jsonOfEvent e).length + 1 ≤ 64) :=
  ⟨⟨by decide, by decide⟩,
    C9_single_event_publish (fun _ => false) 1000 (List.replicate 64 ' ')
      init_state (by decide) (by decide) (by decide)⟩

/-- Claim C10: a poll in which no zone's demand changes leaves the event
log, the rendered JSON buffer and last_event untouched, while still
setting last_poll to the current time and bumping the poll counter
(which resets to 0 instead of going negative, hence stays nonnegative). -/
theorem C10_no_event_frame (high : Nat → Bool) (now : Int) (binit : List Char)
    (s : SysState)
    (hno : ∀ z ∈ s.zone_list, (observe z (high z.pin)).demand = z.demand) :
    (read_all_zones high now binit s).1.zone_events = s.zone_events ∧
    (read_all_zones high now binit s).1.zone_events_json = s.zone_events_json ∧
    (read_all_zones high now binit s).1.last_event = s.last_event ∧
    (read_all_zones high now binit s).1.last_poll = now ∧
    (read_all_zones high now binit s).1.polls = pollsNext s.polls ∧
    0 ≤ (read_all_zones high now binit s).1.polls := by
  have hmain := pollFold_main high now s.zone_list
    { zones := [], events := s.zone_events, buff := { data := binit, oob := false },
      pubs := [], new_event := false }
  have hany : (s.zone_list.any
      fun z => decide (z.demand ≠ (observe z (high z.pin)).demand)) = false := by
    rw [List.any_eq_false]
    intro z hz
    simp [hno z hz]
  have hflag : (s.zone_list.foldl (pollZone high now)
      { zones := [], events := s.zone_events, buff := { data := binit, oob := false },
        pubs := [], new_event := false }).new_event = false := by
    rw [hmain.2.2.1, hany, Bool.or_false]
  have hne : newEvents high now s.zone_list = [] := by
    unfold newEvents
    rw [List.filterMap_eq_nil_iff]
    intro z hz
    dsimp only
    rw [if_neg (by simp [hno z hz])]
  have hev : (read_all_zones high now binit s).1.zone_events = s.zone_events := by
    rw [read_all_zones_events, hne, List.foldl_nil]
  refine ⟨hev, ?_⟩
  unfold read_all_zones
  dsimp only
  rw [hflag]
  simp only [Bool.false_eq_true, if_false]
  refine ⟨?_, ?_, ?_, ?_, ?_⟩ <;>
    first
    | trivial
    | exact pollsNext_nonneg s.polls

/-- A closed instance of C10: an active reading on a zone in the dead
band changes nothing but the poll bookkeeping. -/
theorem C10_no_event_frame_witness :
    (∀ z ∈ midState.zone_list,
      (observe z ((fun _ => false) z.pin)).demand = z.demand) ∧
    ((read_all_zones (fun _ => false) 1000 (List.replicate 64 ' ')
        midState).1.zone_events = midState.zone_events ∧
     (read_all_zones (fun _ => false) 1000 (List.replicate 64 ' ')
        midState).1.zone_events_json = midState.zone_events_json ∧
     (read_all_zones (fun _ => false) 1000 (List.replicate 64 ' ')
        midState).1.last_event = midState.last_event ∧
     (read_all_zones (fun _ => false) 1000 (List.replicate 64 ' ')
        midState).1.last_poll = 1000 ∧
     (read_all_zones (fun _ => false) 1000 (List.replicate 64 ' ')
        midState).1.polls = pollsNext midState.polls ∧
     0 ≤ (read_all_zones (fun _ => false) 1000 (List.replicate 64 ' ')
        midState).1.polls) :=
  ⟨by decide,
    C10_no_event_frame (fun _ => false) 1000 (List.replicate 64 ' ') midState
      (by decide)⟩
